import Mathlib

/-!
Shallow embedding of `chill_models.py` (PAM-timeseries).

Temperature / chill series are lists of entries with a timestamp (in
minutes, mirroring the pandas datetime index at the granularity the code
uses: hourly = 60 minutes, daily = 1440 minutes) and a rational value
(temperature in deg C, or cumulative chill units).  Pandas floats are
modelled by `ℚ`; all thresholds in the source are exact decimals, so this
is faithful for comparisons and sums (the one divergence, division by
zero, is noted at `landsberg`).

Python exceptions are modelled with `Except ChillError`:
`valueError` stands for the `ValueError` that `pd.infer_freq` raises on an
index with fewer than 3 entries, and `invalidParameter` stands for the
InvalidParameter failure the specification describes (the source never
raises it; the constructor exists so that error-behaviour claims can be
stated and refuted).
-/

namespace PAM

structure Entry where
  ts : Nat
  val : ℚ
deriving DecidableEq

inductive ChillError where
  | valueError
  | invalidParameter
deriving DecidableEq

/-- Mirrors `pd.infer_freq(df.index) == 'H'`: true exactly when every pair
of consecutive timestamps is 60 minutes apart (an unanchored hourly
cadence). -/
def hourlyCadence (ts : List Nat) : Bool :=
  (ts.zip ts.tail).all fun p => p.2 == p.1 + 60

/-- Mirrors `pd.infer_freq(df.index)` compared against `'H'`:
`pd.infer_freq` raises `ValueError` ("Need at least 3 dates to infer
frequency") when the index has fewer than 3 entries; otherwise the
comparison yields a boolean. -/
def inferFreqIsH (ts : List Nat) : Except ChillError Bool :=
  if ts.length < 3 then .error .valueError else .ok (hourlyCadence ts)

/-- Backward fill at time `t`: the value of the first entry whose
timestamp is at or after `t` (mirrors `reindex(..., method='bfill')`,
which is what `Resampler.bfill` does).  The `none` fallback is never
reached for slots inside the span of a sorted series. -/
def bfillAt (s : List Entry) (t : Nat) : ℚ :=
  match s.find? fun e => decide (t ≤ e.ts) with
  | some e => e.val
  | none => 0

/-- The resampling slots for a step of `step` minutes: pandas anchors the
bins at the midnight of the first day (`origin='start_day'`), so for the
steps used in the source (60 and 1440, both dividing a day) the labels
run from the first timestamp floored to a multiple of `step` up to the
last timestamp floored likewise. -/
def resampleSlots (step : Nat) (s : List Entry) : List Nat :=
  match s.head?, s.getLast? with
  | some f, some l =>
    (List.range (l.ts / step - f.ts / step + 1)).map fun i =>
      step * (f.ts / step + i)
  | _, _ => []

/-- Mirrors `series.resample(freq).bfill()` for a sorted series. -/
def resampleBfill (step : Nat) (s : List Entry) : List Entry :=
  (resampleSlots step s).map fun t => { ts := t, val := bfillAt s t }

/-- The normalization snippet shared verbatim by every hourly model:
`if pd.infer_freq(df.index) == 'H': temps = df['temp'] else: print(...);
temps = df['temp'].resample('1H').bfill()`.  The boolean of the result
records whether the resampling branch (the one with the warning print)
was taken. -/
def normalizeHourly (df : List Entry) : Except ChillError (List Entry × Bool) :=
  match inferFreqIsH (df.map (·.ts)) with
  | .error e => .error e
  | .ok true => .ok (df, false)
  | .ok false => .ok (resampleBfill 60 df, true)

/-- Running (inclusive) prefix sums starting from `acc`. -/
def cumsumFrom (acc : ℚ) : List ℚ → List ℚ
  | [] => []
  | x :: xs => (acc + x) :: cumsumFrom (acc + x) xs

/-- Mirrors pandas `.cumsum()` on a column of rationals. -/
def cumsum (xs : List ℚ) : List ℚ := cumsumFrom 0 xs

/-- Pair a series' timestamps with a new column of values (the result of a
pandas expression keeps the index of the series it was computed from). -/
def withVals (es : List Entry) (vs : List ℚ) : List Entry :=
  List.zipWith (fun e v => { e with val := v }) es vs

/-- Mirrors a boolean mask such as `(temps < 7.2)` viewed as 0/1 values
(pandas sums booleans as integers). -/
def indicator (p : ℚ → Bool) (temps : List Entry) : List ℚ :=
  temps.map fun e => if p e.val then 1 else 0

/-- Pointwise scaling of a column, `c * xs`. -/
def scale (c : ℚ) (xs : List ℚ) : List ℚ := xs.map (c * ·)

/-- Pointwise sum of two aligned columns. -/
def addCol (xs ys : List ℚ) : List ℚ := List.zipWith (· + ·) xs ys

/-- Pointwise difference of two aligned columns. -/
def subCol (xs ys : List ℚ) : List ℚ := List.zipWith (· - ·) xs ys

/-- The per-hour weight of the chilling-hours model, read off
`(temps < 7.2).cumsum()`: 1 exactly when the temperature is strictly
below 7.2 deg C. -/
def chillingHoursWeight (t : ℚ) : ℚ := if t < 7.2 then 1 else 0

/-- `chilling_hours(df)`: normalize, then `(temps < 7.2).cumsum()`. -/
def chilling_hours (df : List Entry) : Except ChillError (List Entry) :=
  (normalizeHourly df).map fun p =>
    withVals p.1 (cumsum (p.1.map fun e => chillingHoursWeight e.val))

/-- `utah(df, fahrenheit_model)`: normalize, then the signed sum of five
scaled band cumsums, with the classic (fahrenheit-derived) thresholds
when the flag is set and the metric thresholds otherwise. -/
def utah (df : List Entry) (fahrenheit_model : Bool) : Except ChillError (List Entry) :=
  (normalizeHourly df).map fun p =>
    let temps := p.1
    if fahrenheit_model then
      withVals temps (subCol (subCol (addCol (addCol
        (scale 0.5 (cumsum (indicator (fun t => decide (1.1 < t ∧ t ≤ 2.2)) temps)))
        (scale 1.0 (cumsum (indicator (fun t => decide (2.2 < t ∧ t ≤ 8.9)) temps))))
        (scale 0.5 (cumsum (indicator (fun t => decide (8.9 < t ∧ t ≤ 12.2)) temps))))
        (scale 0.5 (cumsum (indicator (fun t => decide (15.6 < t ∧ t ≤ 18.3)) temps))))
        (scale 1.0 (cumsum (indicator (fun t => decide (18.3 < t)) temps))))
    else
      withVals temps (subCol (subCol (addCol (addCol
        (scale 0.5 (cumsum (indicator (fun t => decide (1.4 < t ∧ t ≤ 2.4)) temps)))
        (scale 1.0 (cumsum (indicator (fun t => decide (2.4 < t ∧ t ≤ 9.1)) temps))))
        (scale 0.5 (cumsum (indicator (fun t => decide (9.1 < t ∧ t ≤ 12.4)) temps))))
        (scale 0.5 (cumsum (indicator (fun t => decide (15.9 < t ∧ t ≤ 18)) temps))))
        (scale 1.0 (cumsum (indicator (fun t => decide (18 < t)) temps))))

/-- The per-hour weight of the metric Utah model, read off the bands in
the `else` branch of `utah` (the bands are mutually exclusive). -/
def utahMetricWeight (t : ℚ) : ℚ :=
  if 1.4 < t ∧ t ≤ 2.4 then 0.5
  else if 2.4 < t ∧ t ≤ 9.1 then 1
  else if 9.1 < t ∧ t ≤ 12.4 then 0.5
  else if 15.9 < t ∧ t ≤ 18 then -0.5
  else if 18 < t then -1
  else 0

/-- `positive_chill_units(df)`: the three positive Utah (metric) bands,
with no negative bands. -/
def positive_chill_units (df : List Entry) : Except ChillError (List Entry) :=
  (normalizeHourly df).map fun p =>
    let temps := p.1
    withVals temps (addCol (addCol
      (scale 0.5 (cumsum (indicator (fun t => decide (1.4 < t ∧ t ≤ 2.4)) temps)))
      (scale 1.0 (cumsum (indicator (fun t => decide (2.4 < t ∧ t ≤ 9.1)) temps))))
      (scale 0.5 (cumsum (indicator (fun t => decide (9.1 < t ∧ t ≤ 12.4)) temps))))

/-- `low_chill(df)`: `((temps >= 1.8) & (temps <= 8)).cumsum() -
(temps > 19.5).cumsum()`. -/
def low_chill (df : List Entry) : Except ChillError (List Entry) :=
  (normalizeHourly df).map fun p =>
    let temps := p.1
    withVals temps (subCol
      (cumsum (indicator (fun t => decide (1.8 ≤ t ∧ t ≤ 8)) temps))
      (cumsum (indicator (fun t => decide (19.5 < t)) temps)))

/-- `north_carolina(df)`: `((temps >= 1.6) & (temps <= 7.2)).cumsum() -
2 * (temps > 23.3).cumsum()`. -/
def north_carolina (df : List Entry) : Except ChillError (List Entry) :=
  (normalizeHourly df).map fun p =>
    let temps := p.1
    withVals temps (subCol
      (cumsum (indicator (fun t => decide (1.6 ≤ t ∧ t ≤ 7.2)) temps))
      (scale 2 (cumsum (indicator (fun t => decide (23.3 < t)) temps))))

/-- `dynamic(df)`: a stub in the source; it normalizes the series and then
falls off the end of the function (returning `None`, modelled as `Unit`). -/
def dynamic (df : List Entry) : Except ChillError Unit :=
  (normalizeHourly df).map fun _ => ()

/-- `landsberg(df, base_temp)`: `temps = df['temp'].resample('1D').bfill()`
followed by `temps.cumsum() / base_temp`.  There is no validation of
`base_temp` and no error path; in pandas a zero divisor produces a series
of non-finite floats, here (over `ℚ`) a series of zeros — either way a
result, never an exception. -/
def landsberg (df : List Entry) (base_temp : ℚ) : Except ChillError (List Entry) :=
  let temps := resampleBfill 1440 df
  .ok (withVals temps ((cumsum (temps.map (·.val))).map (· / base_temp)))

/-- An entry of a chill-unit series as `reset_chill_hours` reads it: the
fields of the datetime index it uses (`.index.year`, `.index.dayofyear`),
a time-of-day tag (minutes into the day) distinguishing entries sharing a
day, and the cumulative value. -/
structure ChillEntry where
  year : Int
  doy : Int
  tod : Nat
  val : ℚ
deriving DecidableEq

/-- The `reset_date : Union[datetime, int]` argument of
`reset_chill_hours`.  A datetime is used only through
`reset_date.timetuple().tm_yday`, so it is modelled by that day-of-year;
an `int` is used as `start_doy` directly. -/
inductive Anchor where
  | date (tmYday : Int)
  | doyInt (n : Int)
deriving DecidableEq

/-- `start_doy` as computed at the top of `reset_chill_hours`. -/
def startDoyOf : Anchor → Int
  | .date y => y
  | .doyInt n => n

/-- The grouping key `s.index.year + (s.index.dayofyear - start_doy) // 366`
(Python `//` is floor division, `Int.fdiv`). -/
def bucketKey (startDoy : Int) (e : ChillEntry) : Int :=
  e.year + Int.fdiv (e.doy - startDoy) 366

/-- The distinct group keys in ascending order: pandas `groupby` (with its
default `sort=True`) iterates the groups by ascending key. -/
def distinctKeysAsc (a : Int) (s : List ChillEntry) : List Int :=
  ((s.map (bucketKey a)).dedup).insertionSort (· ≤ ·)

/-- The applied function `lambda x: x - x.iloc[0]` on one group. -/
def rebaseGroup (g : List ChillEntry) : List ChillEntry :=
  match g.head? with
  | some f => g.map fun e => { e with val := e.val - f.val }
  | none => []

/-- `s.groupby([key]).apply(lambda x: x - x.iloc[0])`: each group (in
ascending key order) is the subsequence of `s` with that key, rebased by
its first element; the per-group results are concatenated. -/
def reset_core (a : Int) (s : List ChillEntry) : List ChillEntry :=
  (distinctKeysAsc a s).flatMap fun k =>
    rebaseGroup (s.filter fun e => bucketKey a e == k)

/-- `reset_chill_hours(s, reset_date)`.  The source performs no validation
of the anchor; the `Except` wrapper only makes the error behaviour the
specification talks about expressible (no error is ever produced). -/
def reset_chill_hours (s : List ChillEntry) (reset_date : Anchor) :
    Except ChillError (List ChillEntry) :=
  .ok (reset_core (startDoyOf reset_date) s)

/-- The value of the first entry of `s` (in series order) lying in the
same bucket as `e` — the `x.iloc[0]` of `e`'s group. -/
def firstVal (a : Int) (s : List ChillEntry) (e : ChillEntry) : ℚ :=
  match s.find? fun f => bucketKey a f == bucketKey a e with
  | some f => f.val
  | none => 0

/-- Pointwise characterization of the reset: every entry keeps its
timestamp and has the first value of its bucket subtracted. -/
def rebased (a : Int) (s : List ChillEntry) : List ChillEntry :=
  s.map fun e => { e with val := e.val - firstVal a s e }

/-- Calendar order on the (year, day-of-year) stamps of two entries. -/
def dateLE (e f : ChillEntry) : Prop :=
  e.year < f.year ∨ (e.year = f.year ∧ e.doy ≤ f.doy)

instance : DecidableRel dateLE := fun _ _ =>
  inferInstanceAs (Decidable (_ ∨ _ ∧ _))

/-- A chill-unit series as the data model describes it: day-of-year fields
in `[1, 366]` and entries in chronological order. -/
def Chronological (s : List ChillEntry) : Prop :=
  (∀ e ∈ s, 1 ≤ e.doy ∧ e.doy ≤ 366) ∧ s.Pairwise dateLE

/-- The timestamp part of a chill entry, for frame-preservation claims. -/
def stampOf (e : ChillEntry) : Int × Int × Nat :=
  (e.year, e.doy, e.tod)

instance (s : List ChillEntry) : Decidable (Chronological s) :=
  inferInstanceAs (Decidable (_ ∧ _))

/-- A small two-season chill-unit series used as concrete input by the
witnesses: with anchor day-of-year 270 its bucket keys are 2019, 2020,
2020, 2021. -/
def exChill : List ChillEntry :=
  [⟨2020, 100, 0, 5⟩, ⟨2020, 300, 0, 8⟩, ⟨2021, 50, 0, 11⟩, ⟨2021, 300, 0, 20⟩]

/-- A three-point series already at hourly cadence, used by witnesses. -/
def exHourly : List Entry := [⟨0, 8⟩, ⟨60, 6⟩, ⟨120, 7⟩]

/-- Mean of the values of the entries of `s` falling inside the daily bin
starting at `t` (0 for an empty bin). -/
def dailyMeanAt (s : List Entry) (t : Nat) : ℚ :=
  let xs := (s.filter fun e => decide (t ≤ e.ts ∧ e.ts < t + 1440)).map (·.val)
  if xs.length = 0 then 0 else xs.sum / xs.length

/-- Modelled from the spec: the Daily Accumulator as §4.3 describes it —
"resamples the input to daily means", cumulative value "running sum of
daily-mean-temperature divided by baseTemperature", and "fails with an
InvalidParameter error if baseTemperature is zero".  Stated here only to
be compared with `landsberg`, which is translated from the source. -/
def landsbergSpec (df : List Entry) (base_temp : ℚ) : Except ChillError (List Entry) :=
  if base_temp = 0 then .error .invalidParameter
  else
    let slots := resampleSlots 1440 df
    .ok (List.zipWith (fun t v => { ts := t, val := v : Entry }) slots
      ((cumsum (slots.map fun t => dailyMeanAt df t)).map (· / base_temp)))

/-- The bucket key is a single floor division of the linearized date. -/
theorem bucketKey_eq_ediv (a : Int) (e : ChillEntry) :
    bucketKey a e = (366 * e.year + e.doy - a) / 366 := by
  unfold bucketKey
  rw [Int.fdiv_eq_ediv _ (by norm_num)]
  have h : 366 * e.year + e.doy - a = (e.doy - a) + e.year * 366 := by ring
  rw [h, Int.add_mul_ediv_right _ _ (by norm_num)]
  ring

/-- Calendar order of entries (with day-of-year fields in range) makes the
bucket keys non-decreasing, for any anchor. -/
theorem bucketKey_mono (a : Int) {e f : ChillEntry}
    (hbe : 1 ≤ e.doy ∧ e.doy ≤ 366) (hbf : 1 ≤ f.doy ∧ f.doy ≤ 366)
    (h : dateLE e f) : bucketKey a e ≤ bucketKey a f := by
  rw [bucketKey_eq_ediv, bucketKey_eq_ediv]
  apply Int.ediv_le_ediv (by norm_num)
  rcases h with h | ⟨hy, hd⟩
  · omega
  · omega

/-- In a chronological series the list of bucket keys is sorted. -/
theorem chron_keys_pairwise {s : List ChillEntry} (h : Chronological s) (a : Int) :
    (s.map (bucketKey a)).Pairwise (· ≤ ·) := by
  rw [List.pairwise_map]
  refine (h.2.imp_of_mem ?_)
  intro e f he hf hef
  exact bucketKey_mono a (h.1 e he) (h.1 f hf) hef

/-- When the keys of `s` are already sorted, sorting their dedup is the
identity. -/
theorem distinctKeysAsc_eq_dedup {a : Int} {s : List ChillEntry}
    (h : (s.map (bucketKey a)).Pairwise (· ≤ ·)) :
    distinctKeysAsc a s = (s.map (bucketKey a)).dedup :=
  List.Sorted.insertionSort_eq (h.sublist (List.dedup_sublist _))

/-- Folding a nonempty run of copies of `k` into a list not containing `k`
by `List.union` just prepends `k`. -/
theorem union_of_run {k : Int} :
    ∀ (ks : List Int) (D : List Int), ks ≠ [] → (∀ x ∈ ks, x = k) → k ∉ D →
      ks ∪ D = k :: D := by
  intro ks
  induction ks with
  | nil => intro D h; exact absurd rfl h
  | cons x xs ih =>
    intro D _ hall hkD
    have hx : x = k := hall x (by simp)
    subst hx
    by_cases hxs : xs = []
    · subst hxs
      show List.insert x D = x :: D
      exact List.insert_of_not_mem hkD
    · show List.insert x (xs ∪ D) = x :: D
      rw [ih D hxs (fun y hy => hall y (by simp [hy])) hkD]
      exact List.insert_of_mem (by simp)

/-- Dedup of a nonempty constant run followed by a `k`-free tail. -/
theorem dedup_head_of_run {k : Int} {ks₁ ks₂ : List Int}
    (h1 : ks₁ ≠ []) (hall : ∀ x ∈ ks₁, x = k) (h2 : k ∉ ks₂) :
    (ks₁ ++ ks₂).dedup = k :: ks₂.dedup := by
  rw [List.dedup_append]
  exact union_of_run ks₁ _ h1 hall (fun hmem => h2 (List.mem_dedup.mp hmem))

/-- Structural fact about the group-by: when the bucket keys are sorted
along the series, the group-and-rebase of `reset_core` equals pointwise
rebasing — every entry stays in place with the first value of its bucket
subtracted. -/
theorem reset_core_eq_rebased (a : Int) :
    ∀ (s : List ChillEntry), (s.map (bucketKey a)).Pairwise (· ≤ ·) →
      reset_core a s = rebased a s := by
  suffices main : ∀ (n : Nat) (s : List ChillEntry), s.length ≤ n →
      (s.map (bucketKey a)).Pairwise (· ≤ ·) → reset_core a s = rebased a s by
    intro s hs
    exact main s.length s le_rfl hs
  intro n
  induction n with
  | zero =>
    intro s hlen _
    have hnil : s = [] := List.length_eq_zero.mp (Nat.le_zero.mp hlen)
    subst hnil
    rfl
  | succ n ih =>
    intro s hlen hpair
    cases s with
    | nil => rfl
    | cons e s' =>
      set p : ChillEntry → Bool := fun f => bucketKey a f == bucketKey a e with hp
      have hpe : p e = true := by simp [hp]
      have hsplit : (e :: s').takeWhile p ++ (e :: s').dropWhile p = e :: s' :=
        List.takeWhile_append_dropWhile p (e :: s')
      have hrun_cons : (e :: s').takeWhile p = e :: s'.takeWhile p :=
        List.takeWhile_cons_of_pos hpe
      have hrest_eq : (e :: s').dropWhile p = s'.dropWhile p :=
        List.dropWhile_cons_of_pos hpe
      have hrunkey : ∀ f ∈ (e :: s').takeWhile p, bucketKey a f = bucketKey a e := by
        intro f hf
        simpa [hp] using List.mem_takeWhile_imp hf
      have hpair' : (((e :: s').takeWhile p).map (bucketKey a) ++
          ((e :: s').dropWhile p).map (bucketKey a)).Pairwise (· ≤ ·) := by
        rw [← List.map_append, hsplit]
        exact hpair
      have hcross : ∀ x ∈ (e :: s').takeWhile p, ∀ y ∈ (e :: s').dropWhile p,
          bucketKey a x ≤ bucketKey a y := by
        have h3 := (List.pairwise_append.mp hpair').2.2
        intro x hx y hy
        exact h3 _ (List.mem_map_of_mem _ hx) _ (List.mem_map_of_mem _ hy)
      have hrestpair : (((e :: s').dropWhile p).map (bucketKey a)).Pairwise (· ≤ ·) :=
        (List.pairwise_append.mp hpair').2.1
      have he_run : e ∈ (e :: s').takeWhile p := by
        rw [hrun_cons]
        exact List.mem_cons_self e _
      have hrest_ne : ∀ f ∈ (e :: s').dropWhile p, ¬ bucketKey a f = bucketKey a e := by
        intro f hf hfe
        cases hr : (e :: s').dropWhile p with
        | nil =>
          rw [hr] at hf
          exact absurd hf (List.not_mem_nil f)
        | cons r rest' =>
          have hne : (e :: s').dropWhile p ≠ [] := by
            rw [hr]
            exact List.cons_ne_nil r rest'
          have hpr : p r = false := by
            have h0 := List.head_dropWhile_not p (e :: s') hne
            rwa [List.head_eq_iff_head?_eq_some hne |>.mpr (by rw [hr]; rfl)] at h0
          have hkr : ¬ bucketKey a r = bucketKey a e := by
            simpa [hp] using hpr
          have hker : bucketKey a e ≤ bucketKey a r :=
            hcross e he_run r (by rw [hr]; exact List.mem_cons_self r rest')
          have hkrf : bucketKey a r ≤ bucketKey a f := by
            rw [hr] at hf
            rcases List.mem_cons.mp hf with rfl | hf'
            · exact le_rfl
            · have hpc := hrestpair
              rw [hr, List.map_cons, List.pairwise_cons] at hpc
              exact hpc.1 _ (List.mem_map_of_mem _ hf')
          omega
      have hfilter_run : (e :: s').filter p = (e :: s').takeWhile p := by
        have h1 : ((e :: s').takeWhile p).filter p = (e :: s').takeWhile p :=
          List.filter_eq_self.mpr (fun x hx => List.mem_takeWhile_imp hx)
        have h2 : ((e :: s').dropWhile p).filter p = [] :=
          List.filter_eq_nil_iff.mpr (fun x hx => by
            simp only [hp, beq_iff_eq]
            exact fun hh => hrest_ne x hx hh)
        conv_lhs => rw [← hsplit]
        rw [List.filter_append, h1, h2, List.append_nil]
      have hlen' : ((e :: s').dropWhile p).length ≤ n := by
        rw [hrest_eq]
        have h1 := (List.dropWhile_sublist p (l := s')).length_le
        have h2 : s'.length ≤ n := by simpa using hlen
        omega
      have hfv_run : ∀ x ∈ (e :: s').takeWhile p,
          firstVal a (e :: s') x = e.val := by
        intro x hx
        have hkx := hrunkey x hx
        have hfind : (e :: s').find? (fun f => bucketKey a f == bucketKey a x) = some e :=
          List.find?_cons_of_pos _ (by simp [hkx])
        unfold firstVal
        rw [hfind]
      have hfv_rest : ∀ x ∈ (e :: s').dropWhile p,
          firstVal a (e :: s') x = firstVal a ((e :: s').dropWhile p) x := by
        intro x hx
        have hnone : ((e :: s').takeWhile p).find?
            (fun f => bucketKey a f == bucketKey a x) = none :=
          List.find?_eq_none.mpr (fun y hy => by
            simp only [beq_iff_eq]
            intro hh
            exact hrest_ne x hx (hh.symm.trans (hrunkey y hy)))
        unfold firstVal
        conv_lhs => rw [← hsplit]
        rw [List.find?_append, hnone, Option.none_or]
      have hdedup : ((e :: s').map (bucketKey a)).dedup
          = bucketKey a e :: (((e :: s').dropWhile p).map (bucketKey a)).dedup := by
        conv_lhs => rw [← hsplit]
        rw [List.map_append]
        apply dedup_head_of_run
        · rw [hrun_cons]
          exact List.cons_ne_nil _ _
        · intro x hx
          obtain ⟨f, hf, rfl⟩ := List.mem_map.mp hx
          exact hrunkey f hf
        · intro hx
          obtain ⟨f, hf, hfk⟩ := List.mem_map.mp hx
          exact hrest_ne f hf hfk
      have hblock1 : rebaseGroup ((e :: s').filter p)
          = ((e :: s').takeWhile p).map
              (fun x => { x with val := x.val - firstVal a (e :: s') x }) := by
        rw [hfilter_run, hrun_cons]
        simp only [rebaseGroup, List.head?_cons]
        apply List.map_congr_left
        intro x hx
        rw [hfv_run x (by rw [hrun_cons]; exact hx)]
      have hblock2 : ((((e :: s').dropWhile p).map (bucketKey a)).dedup).flatMap
            (fun k => rebaseGroup ((e :: s').filter fun x => bucketKey a x == k))
          = ((e :: s').dropWhile p).map
              (fun x => { x with val := x.val - firstVal a (e :: s') x }) := by
        have htrans : ((((e :: s').dropWhile p).map (bucketKey a)).dedup).flatMap
              (fun k => rebaseGroup ((e :: s').filter fun x => bucketKey a x == k))
            = ((((e :: s').dropWhile p).map (bucketKey a)).dedup).flatMap
              (fun k => rebaseGroup (((e :: s').dropWhile p).filter
                fun x => bucketKey a x == k)) := by
          apply List.flatMap_congr
          intro k hk
          obtain ⟨g, hg, rfl⟩ := List.mem_map.mp (List.mem_dedup.mp hk)
          have h1 : ((e :: s').takeWhile p).filter
              (fun x => bucketKey a x == bucketKey a g) = [] :=
            List.filter_eq_nil_iff.mpr (fun x hx => by
              simp only [beq_iff_eq]
              intro hh
              exact hrest_ne g hg ((hrunkey x hx).symm.trans hh).symm)
          have hfil : (e :: s').filter (fun x => bucketKey a x == bucketKey a g)
              = ((e :: s').dropWhile p).filter
                  (fun x => bucketKey a x == bucketKey a g) := by
            conv_lhs => rw [← hsplit]
            rw [List.filter_append, h1, List.nil_append]
          rw [hfil]
        rw [htrans]
        have hrc : ((((e :: s').dropWhile p).map (bucketKey a)).dedup).flatMap
              (fun k => rebaseGroup (((e :: s').dropWhile p).filter
                fun x => bucketKey a x == k))
            = reset_core a ((e :: s').dropWhile p) := by
          rw [reset_core, distinctKeysAsc_eq_dedup hrestpair]
        rw [hrc, ih _ hlen' hrestpair, rebased]
        apply List.map_congr_left
        intro x hx
        rw [hfv_rest x hx]
      rw [reset_core, distinctKeysAsc_eq_dedup hpair, hdedup, List.flatMap_cons, ← hp,
        hblock1, hblock2, ← List.map_append, hsplit]
      rfl

/-- C3: for the hourly temperature sequence [8, 6, 7.2, 5, 9] the chilling
hours accumulator returns the cumulative series [0, 1, 1, 2, 2]; the
per-hour weight is 1 exactly for temperatures strictly below 7.2, so 7.2
itself contributes 0. -/
theorem chilling_hours_example_spec :
    chilling_hours [⟨0, 8⟩, ⟨60, 6⟩, ⟨120, 7.2⟩, ⟨180, 5⟩, ⟨240, 9⟩]
      = .ok [⟨0, 0⟩, ⟨60, 1⟩, ⟨120, 1⟩, ⟨180, 2⟩, ⟨240, 2⟩] ∧
    chillingHoursWeight 7.2 = 0 ∧ chillingHoursWeight 5 = 1 := by
  refine ⟨?_, by norm_num [chillingHoursWeight], by norm_num [chillingHoursWeight]⟩
  norm_num [chilling_hours, normalizeHourly, inferFreqIsH, hourlyCadence,
    chillingHoursWeight, cumsum, cumsumFrom, withVals, Except.map]

/-- C4: for the hourly temperature sequence [0, 2, 5, 17, 20] the metric
Utah accumulator's per-hour band weights are [0, 0.5, 1, -0.5, -1] and its
cumulative output is their prefix sums [0, 0.5, 1.5, 1, 0]. -/
theorem utah_metric_example_spec :
    utah [⟨0, 0⟩, ⟨60, 2⟩, ⟨120, 5⟩, ⟨180, 17⟩, ⟨240, 20⟩] false
      = .ok [⟨0, 0⟩, ⟨60, 0.5⟩, ⟨120, 1.5⟩, ⟨180, 1⟩, ⟨240, 0⟩] ∧
    [(0 : ℚ), 2, 5, 17, 20].map utahMetricWeight = [0, 0.5, 1, -0.5, -1] ∧
    cumsum ([(0 : ℚ), 2, 5, 17, 20].map utahMetricWeight) = [0, 0.5, 1.5, 1, 0] := by
  refine ⟨?_, by norm_num [utahMetricWeight], ?_⟩
  · norm_num [utah, normalizeHourly, inferFreqIsH, hourlyCadence, indicator,
      cumsum, cumsumFrom, withVals, scale, addCol, subCol, Except.map]
  · norm_num [utahMetricWeight, cumsum, cumsumFrom]

/-- C1 (divergence witness): on a series with temperatures 0 °C at day-1
00:00, 10 °C at day-1 12:00 and 4 °C at day-2 00:00 with base temperature
1, the source (`resample('1D').bfill()` — the observation at or after each
midnight) yields cumulative [0, 4], while the docstring/spec reading
("sums daily averages") yields [5, 9]. -/
theorem landsberg_bfill_vs_daily_mean :
    landsberg [⟨0, 0⟩, ⟨720, 10⟩, ⟨1440, 4⟩] 1 = .ok [⟨0, 0⟩, ⟨1440, 4⟩] ∧
    landsbergSpec [⟨0, 0⟩, ⟨720, 10⟩, ⟨1440, 4⟩] 1 = .ok [⟨0, 5⟩, ⟨1440, 9⟩] ∧
    landsberg [⟨0, 0⟩, ⟨720, 10⟩, ⟨1440, 4⟩] 1
      ≠ landsbergSpec [⟨0, 0⟩, ⟨720, 10⟩, ⟨1440, 4⟩] 1 := by
  refine ⟨?_, ?_, ?_⟩
  · norm_num [landsberg, resampleBfill, resampleSlots, bfillAt, cumsum,
      cumsumFrom, withVals, List.range_succ, List.find?]
  · norm_num [landsbergSpec, resampleSlots, dailyMeanAt, cumsum, cumsumFrom,
      List.range_succ, List.filter]
  · norm_num [landsberg, landsbergSpec, resampleBfill, resampleSlots, bfillAt,
      dailyMeanAt, cumsum, cumsumFrom, withVals, List.range_succ, List.find?,
      List.filter]

/-- C5 (counterexample): with a zero base temperature and a non-empty
series, `landsberg` does not fail with an InvalidParameter error — it
returns a series (the source has no validation and float division by zero
does not raise). -/
theorem landsberg_zero_base_no_error :
    landsberg [⟨0, 0⟩, ⟨720, 10⟩, ⟨1440, 4⟩] 0
      ≠ Except.error ChillError.invalidParameter := by
  simp [landsberg]

/-- C5 (amended): `landsberg` never fails, whatever the base temperature
(including zero): it always returns a cumulative series. -/
theorem landsberg_never_fails (df : List Entry) (base_temp : ℚ) :
    ∃ out, landsberg df base_temp = Except.ok out :=
  ⟨_, rfl⟩

/-- C8 (counterexample): an anchor day-of-year outside [1, 366] (here 400)
does not make `reset_chill_hours` fail with an InvalidParameter error; the
source performs no validation. -/
theorem reset_chill_hours_oob_anchor_no_error :
    reset_chill_hours [⟨2020, 100, 0, 5⟩] (Anchor.doyInt 400)
      ≠ Except.error ChillError.invalidParameter := by
  simp [reset_chill_hours]

/-- C8 (amended): `reset_chill_hours` never fails: any anchor (datetime or
any integer, in range or not) is accepted and used directly in the bucket
key. -/
theorem reset_chill_hours_never_fails (s : List ChillEntry) (anch : Anchor) :
    ∃ out, reset_chill_hours s anch = Except.ok out :=
  ⟨_, rfl⟩

/-- C6 (counterexample): normalization is not total — on an empty or a
single-point series `pd.infer_freq` raises (fewer than 3 dates), so the
normalization step of an accumulator propagates an error instead of
returning a degenerate hourly series. -/
theorem normalize_single_point_fails :
    normalizeHourly [⟨0, 5⟩] = .error .valueError ∧
    chilling_hours [⟨0, 5⟩] = .error .valueError ∧
    normalizeHourly [] = .error .valueError := by
  refine ⟨?_, ?_, ?_⟩ <;>
    norm_num [normalizeHourly, inferFreqIsH, chilling_hours, Except.map]

/-- C6 (amended): normalization fails exactly on the series frequency
inference cannot handle — those with fewer than three entries — and
succeeds on every series with at least three entries. -/
theorem normalize_fails_iff_short (df : List Entry) :
    (df.length < 3 → normalizeHourly df = .error .valueError) ∧
    (3 ≤ df.length → ∃ out, normalizeHourly df = .ok out) := by
  constructor
  · intro h
    simp [normalizeHourly, inferFreqIsH, h]
  · intro h
    have h' : ¬ (df.map (·.ts)).length < 3 := by simpa using Nat.not_lt.mpr h
    unfold normalizeHourly inferFreqIsH
    rw [if_neg h']
    cases hourlyCadence (df.map (·.ts)) with
    | true => exact ⟨_, rfl⟩
    | false => exact ⟨_, rfl⟩

/-- C9: a series that already has a strictly regular hourly cadence (an
inferable one: at least three entries, consecutive timestamps exactly one
hour apart) passes through normalization unchanged, with the resampling
flag reported false. -/
theorem normalize_hourly_idempotent (df : List Entry)
    (h3 : 3 ≤ df.length) (hh : hourlyCadence (df.map (·.ts)) = true) :
    normalizeHourly df = .ok (df, false) := by
  have h' : ¬ (df.map (·.ts)).length < 3 := by simpa using Nat.not_lt.mpr h3
  unfold normalizeHourly inferFreqIsH
  rw [if_neg h', hh]

/-- C2: on a chronological chill-unit series, for any anchor, the reset
groups entries by the key `year + (doy - anchorDoy) // 366` and maps every
entry to its value minus the value of the first entry of its bucket; in
particular every bucket's first entry is mapped to 0. -/
theorem reset_chill_hours_partitions_and_rebases (s : List ChillEntry)
    (anch : Anchor) (h : Chronological s) :
    reset_chill_hours s anch
      = .ok (s.map fun e =>
          { e with val := e.val - firstVal (startDoyOf anch) s e }) ∧
    ∀ e, s.find? (fun f => bucketKey (startDoyOf anch) f
          == bucketKey (startDoyOf anch) e) = some e →
      e.val - firstVal (startDoyOf anch) s e = 0 := by
  constructor
  · show Except.ok (reset_core (startDoyOf anch) s) = _
    rw [reset_core_eq_rebased _ s (chron_keys_pairwise h _), rebased]
  · intro e hfind
    simp [firstVal, hfind]

/-- C7: on a chronological chill-unit series, for any anchor, the reset
output has the same length and the same timestamps in the same order as
the input; only values change. -/
theorem reset_chill_hours_preserves_frame (s : List ChillEntry)
    (anch : Anchor) (h : Chronological s) :
    ∃ out, reset_chill_hours s anch = .ok out ∧
      out.length = s.length ∧ out.map stampOf = s.map stampOf := by
  refine ⟨rebased (startDoyOf anch) s, ?_, ?_, ?_⟩
  · show Except.ok (reset_core (startDoyOf anch) s) = _
    rw [reset_core_eq_rebased _ s (chron_keys_pairwise h _)]
  · simp [rebased]
  · rw [rebased, List.map_map]
    exact List.map_congr_left fun e _ => rfl

/-- C10: on a chronological chill-unit series, for any anchor, two entries
of the same dormancy-year bucket keep their difference: output value
differences within a bucket equal input value differences. -/
theorem reset_chill_hours_preserves_diffs (s : List ChillEntry)
    (anch : Anchor) (h : Chronological s) :
    ∃ out, reset_chill_hours s anch = .ok out ∧
      ∀ (i j : Nat) (hi : i < out.length) (hj : j < out.length)
        (hi' : i < s.length) (hj' : j < s.length),
        bucketKey (startDoyOf anch) (s.get ⟨i, hi'⟩)
            = bucketKey (startDoyOf anch) (s.get ⟨j, hj'⟩) →
        (out.get ⟨i, hi⟩).val - (out.get ⟨j, hj⟩).val
            = (s.get ⟨i, hi'⟩).val - (s.get ⟨j, hj'⟩).val := by
  refine ⟨rebased (startDoyOf anch) s, ?_, ?_⟩
  · show Except.ok (reset_core (startDoyOf anch) s) = _
    rw [reset_core_eq_rebased _ s (chron_keys_pairwise h _)]
  · intro i j hi hj hi' hj' hk
    have hgi : (rebased (startDoyOf anch) s).get ⟨i, hi⟩
        = { s.get ⟨i, hi'⟩ with
            val := (s.get ⟨i, hi'⟩).val
              - firstVal (startDoyOf anch) s (s.get ⟨i, hi'⟩) } := by
      simp [rebased]
    have hgj : (rebased (startDoyOf anch) s).get ⟨j, hj⟩
        = { s.get ⟨j, hj'⟩ with
            val := (s.get ⟨j, hj'⟩).val
              - firstVal (startDoyOf anch) s (s.get ⟨j, hj'⟩) } := by
      simp [rebased]
    rw [hgi, hgj]
    have hfv : firstVal (startDoyOf anch) s (s.get ⟨i, hi'⟩)
        = firstVal (startDoyOf anch) s (s.get ⟨j, hj'⟩) := by
      unfold firstVal
      rw [hk]
    rw [hfv]
    ring

/-- Witness for C6 (amended): a single-point series errs, a three-point
series succeeds. -/
theorem normalize_fails_iff_short_witness :
    ([(⟨0, 5⟩ : Entry)].length < 3 ∧
      normalizeHourly [⟨0, 5⟩] = .error .valueError) ∧
    (3 ≤ exHourly.length ∧ ∃ out, normalizeHourly exHourly = .ok out) :=
  ⟨⟨by decide, (normalize_fails_iff_short [⟨0, 5⟩]).1 (by decide)⟩,
   ⟨by decide, (normalize_fails_iff_short exHourly).2 (by decide)⟩⟩

/-- Witness for C9: a concrete three-point hourly series passes through
unchanged with the flag false. -/
theorem normalize_hourly_idempotent_witness :
    3 ≤ exHourly.length ∧ hourlyCadence (exHourly.map (·.ts)) = true ∧
    normalizeHourly exHourly = .ok (exHourly, false) :=
  ⟨by decide, by decide,
   normalize_hourly_idempotent exHourly (by decide) (by decide)⟩

/-- Witness for C2: the chronology hypothesis holds of `exChill` and the
partition-and-rebase conclusion follows for anchor day-of-year 270. -/
theorem reset_chill_hours_partitions_and_rebases_witness :
    Chronological exChill ∧
    (reset_chill_hours exChill (Anchor.doyInt 270)
        = .ok (exChill.map fun e =>
            { e with val := e.val - firstVal (startDoyOf (Anchor.doyInt 270)) exChill e }) ∧
      ∀ e, exChill.find? (fun f => bucketKey (startDoyOf (Anchor.doyInt 270)) f
            == bucketKey (startDoyOf (Anchor.doyInt 270)) e) = some e →
        e.val - firstVal (startDoyOf (Anchor.doyInt 270)) exChill e = 0) :=
  ⟨by decide,
   reset_chill_hours_partitions_and_rebases exChill (Anchor.doyInt 270) (by decide)⟩

/-- Witness for C7: frame preservation instantiated on `exChill` with
anchor day-of-year 270. -/
theorem reset_chill_hours_preserves_frame_witness :
    Chronological exChill ∧
    ∃ out, reset_chill_hours exChill (Anchor.doyInt 270) = .ok out ∧
      out.length = exChill.length ∧ out.map stampOf = exChill.map stampOf :=
  ⟨by decide,
   reset_chill_hours_preserves_frame exChill (Anchor.doyInt 270) (by decide)⟩

/-- Witness for C10: in-bucket difference preservation instantiated on
`exChill` with anchor day-of-year 270 (whose entries 1 and 2 share the
bucket 2020). -/
theorem reset_chill_hours_preserves_diffs_witness :
    Chronological exChill ∧
    ∃ out, reset_chill_hours exChill (Anchor.doyInt 270) = .ok out ∧
      ∀ (i j : Nat) (hi : i < out.length) (hj : j < out.length)
        (hi' : i < exChill.length) (hj' : j < exChill.length),
        bucketKey (startDoyOf (Anchor.doyInt 270)) (exChill.get ⟨i, hi'⟩)
            = bucketKey (startDoyOf (Anchor.doyInt 270)) (exChill.get ⟨j, hj'⟩) →
        (out.get ⟨i, hi⟩).val - (out.get ⟨j, hj⟩).val
            = (exChill.get ⟨i, hi'⟩).val - (exChill.get ⟨j, hj'⟩).val :=
  ⟨by decide,
   reset_chill_hours_preserves_diffs exChill (Anchor.doyInt 270) (by decide)⟩

end PAM
